import Mathlib

/-!
# Verification of the dwv DICOM viewer specification

Shallow embedding of the parts of the dwv repository referenced by the
specification: the 2D shape utilities (`src/math/rectangle.js` and the
Ellipse module), the data controller (`src/app/dataController.js`), and a
model of the DICOM codec (`DicomParser` / `DicomWriter`), whose source is
not part of the analysed tree and is therefore modelled from the
specification document.
-/

namespace DWV

/-! ## Shapes (`src/math/rectangle.js`, Ellipse module)

JavaScript numbers are modelled as rationals; nullable numbers as
`Option ℚ` with `none` standing for JavaScript `null`. -/

/-- 2D point with `getX`/`getY`; `Point2D.equals` in `src/math/point.js`
(componentwise equality of coordinates) is modelled as decidable equality
of this structure. -/
structure Point2D where
  x : ℚ
  y : ℚ
deriving DecidableEq, Repr

/-- `Point2D.equals`: componentwise coordinate equality (point.js). -/
def Point2D.equalsB (p q : Point2D) : Bool :=
  p.x == q.x && p.y == q.y

/-- `mulABC` from `src/math/rectangle.js` (an identical copy exists in the
Ellipse module): multiply the three inputs if the last two are not null,
otherwise return null. -/
def mulABC (a : ℚ) (b c : Option ℚ) : Option ℚ :=
  match b, c with
  | some b, some c => some (a * b * c)
  | _, _ => none

/-- `Rectangle`: stores normalized begin/end corners. -/
structure Rectangle where
  begin : Point2D
  «end» : Point2D
deriving DecidableEq, Repr

/-- The `Rectangle` constructor: begin is the componentwise min of the two
given points, end the componentwise max (`rectangle.js` lines 47-56). -/
def Rectangle.make (b e : Point2D) : Rectangle :=
  { begin := ⟨min b.x e.x, min b.y e.y⟩
    «end» := ⟨max b.x e.x, max b.y e.y⟩ }

/-- `Rectangle.equals`: begin points equal and end points equal. -/
def Rectangle.equalsB (r s : Rectangle) : Bool :=
  r.begin.equalsB s.begin && r.«end».equalsB s.«end»

/-- `Rectangle.getSurface`: |Δx| * |Δy|. -/
def Rectangle.getSurface (r : Rectangle) : ℚ :=
  |r.«end».x - r.begin.x| * |r.«end».y - r.begin.y|

/-- `Rectangle.getWorldSurface`. -/
def Rectangle.getWorldSurface (r : Rectangle) (sx sy : Option ℚ) : Option ℚ :=
  mulABC r.getSurface sx sy

/-- `Rectangle.getRealWidth`. -/
def Rectangle.getRealWidth (r : Rectangle) : ℚ :=
  r.«end».x - r.begin.x

/-- `Rectangle.getRealHeight`. -/
def Rectangle.getRealHeight (r : Rectangle) : ℚ :=
  r.«end».y - r.begin.y

/-- `Rectangle.getWidth`. -/
def Rectangle.getWidth (r : Rectangle) : ℚ :=
  |r.getRealWidth|

/-- `Rectangle.getHeight`. -/
def Rectangle.getHeight (r : Rectangle) : ℚ :=
  |r.getRealHeight|

/-- The IEEE-754 double value of `Math.PI`, as an exact rational. -/
def mathPI : ℚ := 884279719003555 / 281474976710656

/-- `Ellipse` from the Ellipse module: centre and the two radii. -/
structure Ellipse where
  centre : Point2D
  a : ℚ
  b : ℚ
deriving DecidableEq, Repr

/-- `Ellipse.getSurface`: `Math.PI * a * b`. -/
def Ellipse.getSurface (e : Ellipse) : ℚ :=
  mathPI * e.a * e.b

/-- `Ellipse.getWorldSurface`. -/
def Ellipse.getWorldSurface (e : Ellipse) (sx sy : Option ℚ) : Option ℚ :=
  mulABC e.getSurface sx sy

/-! ## DataController (`src/app/dataController.js`)

The private `#data` object (a JavaScript plain object used as an
index-keyed map) is modelled as an association list whose keys are
pairwise distinct, mirroring the uniqueness of object properties.
`length()` is `Object.keys(this.#data).length`, `get(index)` the property
access, and `addNew` the guarded insertion. `addNew` is modelled as
returning the new store together with an optional error message: the
`throw` happens before any mutation, so on error the returned store is
the unchanged input. Event-listener plumbing is out of the data model. -/

/-- One stored entry: `{image, meta}`. -/
structure DCEntry (α β : Type) where
  image : α
  meta : β

/-- The data store: an association list from index to entry with
pairwise distinct keys (object properties are unique). -/
structure DataController (α β : Type) where
  data : List (Nat × DCEntry α β)
  nodupKeys : (data.map Prod.fst).Nodup

/-- `length()`: `Object.keys(this.#data).length`; with distinct keys this
is the number of stored pairs. -/
def DataController.length (dc : DataController α β) : Nat :=
  dc.data.length

/-- `get(index)`: property access, `undefined` (`none`) when absent. -/
def DataController.get (dc : DataController α β) (i : Nat) :
    Option (DCEntry α β) :=
  (dc.data.find? (fun p => p.fst == i)).map Prod.snd

theorem find?_eq_none_key_not_mem {α β : Type} (l : List (Nat × DCEntry α β))
    (i : Nat) (h : l.find? (fun p => p.fst == i) = none) :
    i ∉ l.map Prod.fst := by
  intro hmem
  rcases List.mem_map.mp hmem with ⟨p, hp, hpi⟩
  have := List.find?_eq_none.mp h p hp
  simp [hpi] at this

/-- `addNew(index, image, meta)`: throws when the index is already used
(returning the untouched store with the error message), otherwise stores
the new `{image, meta}` entry at the index. -/
def DataController.addNew (dc : DataController α β) (i : Nat)
    (img : α) (m : β) : DataController α β × Option String :=
  match h : dc.data.find? (fun p => p.fst == i) with
  | some _ => (dc, some ("Index already used in storage: " ++ toString i))
  | none =>
      (⟨dc.data ++ [(i, ⟨img, m⟩)], by
        rw [List.map_append, List.nodup_append]
        exact ⟨dc.nodupKeys, List.nodup_singleton i,
          by
            intro a ha hb
            simp only [List.map_cons, List.map_nil, List.mem_singleton] at hb
            rw [hb] at ha
            exact find?_eq_none_key_not_mem dc.data i h ha⟩⟩,
       none)

/-- The empty data store (initial `#data = {}`). -/
def DataController.empty (α β : Type) : DataController α β :=
  ⟨[], List.nodup_nil⟩

/-! ## DICOM codec model

Modelled from the spec: the DICOM codec (`TagDictionary`, `ByteCursor`,
`ElementCodec`, `DatasetParser`, `DatasetWriter`) lives in
`src/dicom/dicomParser.js` / `src/dicom/dicomWriter.js`, which are not
part of the analysed source tree (only `src/index.js` imports them).  The
definitions below follow the specification document §2-§4 and §6-§7:
byte streams are lists of byte values, a data set is an ordered list of
data elements, sequence elements hold nested data sets, and the element
codec is parameterized by the transfer syntax (VR explicitness and byte
order).  The model covers the uncompressed transfer syntaxes with
explicit (non-undefined) lengths; encapsulated pixel-data fragments and
undefined-length sequences are outside the modelled subset. -/

/-- A byte stream: a list of byte values. -/
abbrev Bytes := List Nat

/-- Modelled from the spec (ByteCursor): little-endian encoding of an
unsigned integer on `w` bytes. -/
def natToBytesLE : Nat → Nat → Bytes
  | 0, _ => []
  | w + 1, n => n % 256 :: natToBytesLE w (n / 256)

/-- Modelled from the spec (ByteCursor): little-endian decoding of a
byte list into an unsigned integer. -/
def bytesToNatLE : Bytes → Nat
  | [] => 0
  | b :: rest => b + 256 * bytesToNatLE rest

/-- Endianness-dispatching unsigned-integer encoding: big-endian is the
byte-reversed little-endian form. -/
def natToBytes (big : Bool) (w n : Nat) : Bytes :=
  if big then (natToBytesLE w n).reverse else natToBytesLE w n

/-- Endianness-dispatching unsigned-integer decoding. -/
def bytesToNat (big : Bool) (bs : Bytes) : Nat :=
  if big then bytesToNatLE bs.reverse else bytesToNatLE bs

/-- Modelled from the spec (FormatError taxonomy, §7): malformed-stream
errors raised by the parser. -/
inductive FormatError where
  | truncated : FormatError
  | badMagic : FormatError
  | badItemTag : FormatError
  | badMetaHeader : FormatError
  | undefinedLength : FormatError
  | depthExceeded : FormatError
  | unsupportedTransferSyntax : FormatError
deriving DecidableEq, Repr

/-- Modelled from the spec (ByteCursor): bounds-checked read of `n` raw
bytes; fails rather than reading out of bounds. -/
def readBytes (n : Nat) (bs : Bytes) : Except FormatError (Bytes × Bytes) :=
  if n ≤ bs.length then .ok (bs.take n, bs.drop n) else .error .truncated

/-- Modelled from the spec (ByteCursor): bounds-checked, endianness-aware
read of a `w`-byte unsigned integer. -/
def readUInt (big : Bool) (w : Nat) (bs : Bytes) :
    Except FormatError (Nat × Bytes) :=
  match readBytes w bs with
  | .error e => .error e
  | .ok (v, rest) => .ok (bytesToNat big v, rest)

theorem natToBytesLE_length (w n : Nat) : (natToBytesLE w n).length = w := by
  induction w generalizing n with
  | zero => rfl
  | succ w ih => simp [natToBytesLE, ih]

theorem natToBytes_length (big : Bool) (w n : Nat) :
    (natToBytes big w n).length = w := by
  cases big <;> simp [natToBytes, natToBytesLE_length]

theorem bytesToNatLE_natToBytesLE (w n : Nat) (h : n < 256 ^ w) :
    bytesToNatLE (natToBytesLE w n) = n := by
  induction w generalizing n with
  | zero =>
    simp only [pow_zero, Nat.lt_one_iff] at h
    simp [natToBytesLE, bytesToNatLE, h]
  | succ w ih =>
    have hlt : n / 256 < 256 ^ w := by
      rw [Nat.div_lt_iff_lt_mul (by norm_num)]
      calc n < 256 ^ (w + 1) := h
        _ = 256 ^ w * 256 := by ring
    simp only [natToBytesLE, bytesToNatLE, ih _ hlt]
    omega

theorem bytesToNat_natToBytes (big : Bool) (w n : Nat) (h : n < 256 ^ w) :
    bytesToNat big (natToBytes big w n) = n := by
  cases big <;>
    simp [bytesToNat, natToBytes, bytesToNatLE_natToBytesLE w n h]

theorem readBytes_append (xs rest : Bytes) :
    readBytes xs.length (xs ++ rest) = .ok (xs, rest) := by
  simp [readBytes, List.take_append, List.drop_append]

theorem readBytes_exact (n : Nat) (xs rest : Bytes) (h : xs.length = n) :
    readBytes n (xs ++ rest) = .ok (xs, rest) := by
  subst h; exact readBytes_append xs rest

theorem readUInt_natToBytes (big : Bool) (w n : Nat) (rest : Bytes)
    (h : n < 256 ^ w) :
    readUInt big w (natToBytes big w n ++ rest) = .ok (n, rest) := by
  rw [readUInt, readBytes_exact w _ rest (natToBytes_length big w n)]
  show Except.ok (bytesToNat big (natToBytes big w n), rest) =
    Except.ok (n, rest)
  rw [bytesToNat_natToBytes big w n h]

theorem readBytes_ok {n : Nat} {bs v rest : Bytes}
    (h : readBytes n bs = .ok (v, rest)) :
    v.length = n ∧ rest.length + n = bs.length ∧ bs = v ++ rest := by
  unfold readBytes at h
  split at h
  case isTrue hn =>
    rw [Except.ok.injEq, Prod.mk.injEq] at h
    obtain ⟨hv, hr⟩ := h
    subst hv; subst hr
    refine ⟨by simp [List.length_take, Nat.min_eq_left hn], ?_,
      (List.take_append_drop n bs).symm⟩
    rw [List.length_drop]; omega
  case isFalse => cases h

theorem readUInt_ok {big : Bool} {w : Nat} {bs rest : Bytes} {n : Nat}
    (h : readUInt big w bs = .ok (n, rest)) :
    rest.length + w = bs.length := by
  unfold readUInt at h
  split at h
  · cases h
  case h_2 v r heq =>
    rw [Except.ok.injEq, Prod.mk.injEq] at h
    obtain ⟨-, hr⟩ := h
    subst hr
    exact (readBytes_ok heq).2.1

/-! ### Tags, value representations, transfer syntaxes -/

/-- Modelled from the spec (§3): a tag is a (group, element) pair of
16-bit values. -/
structure Tag where
  group : Nat
  element : Nat
deriving DecidableEq, Repr

/-- A tag is wire-representable when both halves fit in 16 bits. -/
def Tag.wf (t : Tag) : Bool :=
  t.group < 65536 && t.element < 65536

/-- A value representation code: the two ASCII bytes of the VR as they
appear on the wire in explicit-VR streams. -/
structure VRCode where
  c1 : Nat
  c2 : Nat
deriving DecidableEq, Repr

def vrOB : VRCode := ⟨0x4F, 0x42⟩
def vrOW : VRCode := ⟨0x4F, 0x57⟩
def vrOF : VRCode := ⟨0x4F, 0x46⟩
def vrOD : VRCode := ⟨0x4F, 0x44⟩
def vrOL : VRCode := ⟨0x4F, 0x4C⟩
def vrSQ : VRCode := ⟨0x53, 0x51⟩
def vrUT : VRCode := ⟨0x55, 0x54⟩
def vrUN : VRCode := ⟨0x55, 0x4E⟩
def vrUC : VRCode := ⟨0x55, 0x43⟩
def vrUR : VRCode := ⟨0x55, 0x52⟩
def vrUI : VRCode := ⟨0x55, 0x49⟩
def vrUL : VRCode := ⟨0x55, 0x4C⟩
def vrUS : VRCode := ⟨0x55, 0x53⟩
def vrSS : VRCode := ⟨0x53, 0x53⟩
def vrSL : VRCode := ⟨0x53, 0x4C⟩
def vrFL : VRCode := ⟨0x46, 0x4C⟩
def vrFD : VRCode := ⟨0x46, 0x44⟩
def vrPN : VRCode := ⟨0x50, 0x4E⟩
def vrDA : VRCode := ⟨0x44, 0x41⟩
def vrLO : VRCode := ⟨0x4C, 0x4F⟩
def vrCS : VRCode := ⟨0x43, 0x53⟩

/-- Modelled from the spec (§4.1): the VRs that use 2 reserved bytes and
a 4-byte length field in explicit-VR streams; every other VR uses a
2-byte length field. -/
def vrLong (v : VRCode) : Bool :=
  v == vrOB || v == vrOW || v == vrOF || v == vrSQ || v == vrUT ||
  v == vrUN || v == vrUC || v == vrUR || v == vrOD || v == vrOL

/-- Modelled from the spec (§4.1): fixed byte width of the numeric VR
families (2, 4 or 8 bytes); `none` for non-numeric VRs. -/
def vrNumWidth (v : VRCode) : Option Nat :=
  if v == vrUS || v == vrSS || v == vrOW then some 2
  else if v == vrUL || v == vrSL || v == vrFL || v == vrOF then some 4
  else if v == vrFD || v == vrOD then some 8
  else none

/-- Modelled from the spec (§3): a transfer syntax fixes VR explicitness
and byte order (the modelled subset is uncompressed). -/
structure TransferSyntax where
  implicitVR : Bool
  bigEndian : Bool
deriving DecidableEq, Repr

/-- Implicit-VR little-endian. -/
def tsImplicitLE : TransferSyntax := ⟨true, false⟩
/-- Explicit-VR little-endian. -/
def tsExplicitLE : TransferSyntax := ⟨false, false⟩
/-- Explicit-VR big-endian. -/
def tsExplicitBE : TransferSyntax := ⟨false, true⟩

/-- The supported (uncompressed) transfer syntaxes of the model. -/
def supportedTS : List TransferSyntax :=
  [tsImplicitLE, tsExplicitLE, tsExplicitBE]

/-- ASCII bytes of a string (used for transfer-syntax UIDs). -/
def strBytes (s : String) : Bytes :=
  s.data.map Char.toNat

/-- The registered UID of each supported transfer syntax. -/
def tsUID (ts : TransferSyntax) : Bytes :=
  if ts == tsImplicitLE then strBytes "1.2.840.10008.1.2"
  else if ts == tsExplicitLE then strBytes "1.2.840.10008.1.2.1"
  else strBytes "1.2.840.10008.1.2.2"

/-- Modelled from the spec (§6): transfer-syntax detection from the UID
found in the meta header; unknown UIDs are unsupported. -/
def uidToTS (bs : Bytes) : Option TransferSyntax :=
  if bs == strBytes "1.2.840.10008.1.2" then some tsImplicitLE
  else if bs == strBytes "1.2.840.10008.1.2.1" then some tsExplicitLE
  else if bs == strBytes "1.2.840.10008.1.2.2" then some tsExplicitBE
  else none

/-- Modelled from the spec (§2, TagDictionary): the static read-only
tag-to-VR mapping, here a representative finite fragment of the full
dictionary (same lookup semantics; the spec does not reproduce the
table). -/
def tagDictionary : List (Tag × VRCode) :=
  [(⟨0x0008, 0x0016⟩, vrUI), (⟨0x0008, 0x0018⟩, vrUI),
   (⟨0x0008, 0x0060⟩, vrCS), (⟨0x0008, 0x1140⟩, vrSQ),
   (⟨0x0010, 0x0010⟩, vrPN), (⟨0x0010, 0x0030⟩, vrDA),
   (⟨0x0010, 0x4000⟩, vrLO), (⟨0x0028, 0x0010⟩, vrUS),
   (⟨0x0028, 0x0011⟩, vrUS), (⟨0x0040, 0xA730⟩, vrSQ),
   (⟨0x7FE0, 0x0010⟩, vrOW)]

/-- Modelled from the spec (TagDictionary lookup): the VR registered for
a tag, `none` on a dictionary miss. -/
def dictVR (t : Tag) : Option VRCode :=
  (tagDictionary.find? (fun p => p.fst == t)).map Prod.snd

/-! ### Data elements and data sets -/

/-- Modelled from the spec (§3): a data element is {tag, VR, payload};
for sequence VR the payload is an ordered list of child data sets. -/
inductive DataElement where
  | raw : Tag → VRCode → Bytes → DataElement
  | seq : Tag → List (List DataElement) → DataElement
deriving Repr

/-- Modelled from the spec (§3): an ordered collection of data elements
(insertion order equals stream order). -/
abbrev DataSet := List DataElement

/-- The tag of a data element. -/
def DataElement.tag : DataElement → Tag
  | .raw t _ _ => t
  | .seq t _ => t

/-- The VR of a data element (sequence elements have VR SQ). -/
def DataElement.vr : DataElement → VRCode
  | .raw _ v _ => v
  | .seq _ _ => vrSQ

/-- The 4-byte length value reserved to mean "undefined length". -/
def undefLen : Nat := 0xFFFFFFFF

/-- The reserved item tag (FFFE,E000) that begins each sequence item. -/
def itemTag : Tag := ⟨0xFFFE, 0xE000⟩

/-- Modelled from the spec (ElementCodec encode): the wire form of a
tag under a transfer syntax's byte order. -/
def writeTag (ts : TransferSyntax) (t : Tag) : Bytes :=
  natToBytes ts.bigEndian 2 t.group ++ natToBytes ts.bigEndian 2 t.element

/-- Modelled from the spec (§4.1): the VR/length header of an element.
Implicit VR: a 4-byte length only.  Explicit VR: the 2 VR bytes, then
either 2 reserved bytes and a 4-byte length (long VRs) or a 2-byte
length (all other VRs). -/
def writeHeader (ts : TransferSyntax) (vr : VRCode) (len : Nat) : Bytes :=
  if ts.implicitVR then natToBytes ts.bigEndian 4 len
  else if vrLong vr then
    vr.c1 :: vr.c2 :: 0 :: 0 :: natToBytes ts.bigEndian 4 len
  else
    vr.c1 :: vr.c2 :: natToBytes ts.bigEndian 2 len

/-- Modelled from the spec (§7): the writer's error, identifying the
offending tag. -/
structure WriteValueError where
  tag : Tag
  msg : String
deriving DecidableEq, Repr

/-- Modelled from the spec (§4.3): the writer's per-element value check,
a value fits when its byte length fits the VR's length-field width
(4-byte field for long VRs, where 0xFFFFFFFF is reserved; 2-byte field
otherwise) and, for numeric VRs, is consistent with the declared
numeric width. -/
def rawFits (vr : VRCode) (v : Bytes) : Bool :=
  (if vrLong vr then v.length < undefLen else v.length ≤ 65535) &&
  (match vrNumWidth vr with
   | some w => v.length % w == 0
   | none => true)

mutual

/-- Modelled from the spec (ElementCodec encode, DatasetWriter): encode
one element under the target transfer syntax: tag, VR/length header,
then the raw payload — or, for sequences, the item-wrapped children
(explicit-length mode), with the length computed from the serialized
children. -/
def encodeElement (ts : TransferSyntax) (e : DataElement) :
    Except WriteValueError Bytes :=
  match e with
  | .raw t vr v =>
    if rawFits vr v then
      .ok (writeTag ts t ++ writeHeader ts vr v.length ++ v)
    else .error ⟨t, "value does not fit its VR"⟩
  | .seq t items => do
    let body ← encodeItems ts items
    if body.length < undefLen then
      .ok (writeTag ts t ++ writeHeader ts vrSQ body.length ++ body)
    else .error ⟨t, "sequence body does not fit its length field"⟩

/-- Modelled from the spec (§4.1): each sequence item is written as the
reserved item tag, a 4-byte explicit length, then the serialized child
data set. -/
def encodeItems (ts : TransferSyntax) (items : List DataSet) :
    Except WriteValueError Bytes :=
  match items with
  | [] => .ok []
  | ds :: rest => do
    let b ← encodeDataSet ts ds
    let r ← encodeItems ts rest
    .ok (writeTag ts itemTag ++ natToBytes ts.bigEndian 4 b.length ++ b ++ r)

/-- Modelled from the spec (DatasetWriter): a data set is the
concatenation of its encoded elements, in order. -/
def encodeDataSet (ts : TransferSyntax) (ds : DataSet) :
    Except WriteValueError Bytes :=
  match ds with
  | [] => .ok []
  | e :: rest => do
    let b ← encodeElement ts e
    let r ← encodeDataSet ts rest
    .ok (b ++ r)

end

/-! ### The element decoder -/

/-- Modelled from the spec (§4.1): read the raw 2-byte VR code of an
explicit-VR element. -/
def readVRBytes (bs : Bytes) : Except FormatError (VRCode × Bytes) :=
  match bs with
  | c1 :: c2 :: rest => .ok (⟨c1, c2⟩, rest)
  | _ => .error .truncated

/-- Modelled from the spec (ElementCodec decode): read a tag under the
transfer syntax's byte order. -/
def readTag (ts : TransferSyntax) (bs : Bytes) :
    Except FormatError (Tag × Bytes) :=
  match readUInt ts.bigEndian 2 bs with
  | .error e => .error e
  | .ok (g, r1) =>
    match readUInt ts.bigEndian 2 r1 with
    | .error e => .error e
    | .ok (el, r2) => .ok (⟨g, el⟩, r2)

/-- Modelled from the spec (§4.1 decode): read one element's tag, VR and
length and split off its value bytes.  Explicit VR reads the 2-byte VR
code from the stream (long VRs then skip 2 reserved bytes and read a
4-byte length, short VRs a 2-byte length); implicit VR always reads a
4-byte length and resolves the VR through the dictionary, falling back
to UN on a miss.  A declared length larger than the remaining buffer is
a format error (bounds-checked read); the undefined-length marker is
outside the modelled explicit-length subset. -/
def readElemHeader (ts : TransferSyntax) (bs : Bytes) :
    Except FormatError (Tag × VRCode × Bytes × Bytes) :=
  match readTag ts bs with
  | .error e => .error e
  | .ok (t, r1) =>
    if ts.implicitVR then
      match readUInt ts.bigEndian 4 r1 with
      | .error e => .error e
      | .ok (len, r2) =>
        if len = undefLen then .error .undefinedLength
        else
          match readBytes len r2 with
          | .error e => .error e
          | .ok (v, rest) => .ok (t, (dictVR t).getD vrUN, v, rest)
    else
      match readVRBytes r1 with
      | .error e => .error e
      | .ok (vr, r2) =>
        if vrLong vr then
          match readBytes 2 r2 with
          | .error e => .error e
          | .ok (_, r3) =>
            match readUInt ts.bigEndian 4 r3 with
            | .error e => .error e
            | .ok (len, r4) =>
              if len = undefLen then .error .undefinedLength
              else
                match readBytes len r4 with
                | .error e => .error e
                | .ok (v, rest) => .ok (t, vr, v, rest)
        else
          match readUInt ts.bigEndian 2 r2 with
          | .error e => .error e
          | .ok (len, r3) =>
            match readBytes len r3 with
            | .error e => .error e
            | .ok (v, rest) => .ok (t, vr, v, rest)

theorem readVRBytes_ok {bs rest : Bytes} {vr : VRCode}
    (h : readVRBytes bs = .ok (vr, rest)) :
    rest.length + 2 = bs.length := by
  unfold readVRBytes at h
  split at h
  case h_1 c1 c2 r =>
    rw [Except.ok.injEq, Prod.mk.injEq] at h
    obtain ⟨-, hr⟩ := h
    subst hr
    simp
  case h_2 => cases h

theorem readTag_ok {ts : TransferSyntax} {bs rest : Bytes} {t : Tag}
    (h : readTag ts bs = .ok (t, rest)) :
    rest.length + 4 = bs.length := by
  unfold readTag at h
  split at h
  · cases h
  case h_2 g r1 heq1 =>
    split at h
    · cases h
    case h_2 el r2 heq2 =>
      rw [Except.ok.injEq, Prod.mk.injEq] at h
      obtain ⟨-, hr⟩ := h
      subst hr
      have h1 := readUInt_ok heq1
      have h2 := readUInt_ok heq2
      omega

/-- A successful header read consumes at least 8 header bytes: the value
and the remainder are both strictly shorter than the input. -/
theorem readElemHeader_ok {ts : TransferSyntax} {bs v rest : Bytes}
    {t : Tag} {vr : VRCode}
    (h : readElemHeader ts bs = .ok (t, vr, v, rest)) :
    v.length + rest.length + 8 ≤ bs.length := by
  unfold readElemHeader at h
  split at h
  · cases h
  case h_2 t' r1 heq1 =>
    have h1 := readTag_ok heq1
    split at h
    · -- implicit VR: 4-byte length then value
      split at h
      · cases h
      case h_2 len r2 heq2 =>
        have h2 := readUInt_ok heq2
        split at h
        · cases h
        · split at h
          · cases h
          case h_2 v' rest' heq3 =>
            have h3 := readBytes_ok heq3
            rw [Except.ok.injEq, Prod.mk.injEq, Prod.mk.injEq,
              Prod.mk.injEq] at h
            obtain ⟨-, -, hv, hr⟩ := h
            subst hv; subst hr
            omega
    · -- explicit VR
      split at h
      · cases h
      case h_2 vr' r2 heq2 =>
        have h2 := readVRBytes_ok heq2
        split at h
        · -- long VR: 2 reserved bytes, 4-byte length, value
          split at h
          · cases h
          case h_2 sk r3 heq3 =>
            have h3 := readBytes_ok heq3
            split at h
            · cases h
            case h_2 len r4 heq4 =>
              have h4 := readUInt_ok heq4
              split at h
              · cases h
              · split at h
                · cases h
                case h_2 v' rest' heq5 =>
                  have h5 := readBytes_ok heq5
                  rw [Except.ok.injEq, Prod.mk.injEq, Prod.mk.injEq,
                    Prod.mk.injEq] at h
                  obtain ⟨-, -, hv, hr⟩ := h
                  subst hv; subst hr
                  omega
        · -- short VR: 2-byte length, value
          split at h
          · cases h
          case h_2 len r3 heq3 =>
            have h3 := readUInt_ok heq3
            split at h
            · cases h
            case h_2 v' rest' heq4 =>
              have h4 := readBytes_ok heq4
              rw [Except.ok.injEq, Prod.mk.injEq, Prod.mk.injEq,
                Prod.mk.injEq] at h
              obtain ⟨-, -, hv, hr⟩ := h
              subst hv; subst hr
              omega

/-! ### The recursive data-set parser

Modelled from the spec (§4.1, §4.2, §9): bounded recursive descent.  The
depth counter decreases once per nested sequence level; a sequence met
with the counter exhausted is rejected (`depthExceeded`) rather than
recursed into.  Each item begins with the reserved item tag and an
explicit length, and items are parsed as nested data sets. -/

/-- Modelled from the spec (§4.1): read one item header of a sequence
body: the reserved item tag (FFFE,E000) and an explicit 4-byte length,
then split off that many bytes as the item's nested data set. -/
def readItemHeader (ts : TransferSyntax) (bs : Bytes) :
    Except FormatError (Bytes × Bytes) :=
  match readTag ts bs with
  | .error e => .error e
  | .ok (t, r1) =>
    if t == itemTag then
      match readUInt ts.bigEndian 4 r1 with
      | .error e => .error e
      | .ok (len, r2) =>
        if len = undefLen then .error .undefinedLength
        else readBytes len r2
    else .error .badItemTag

/-- A successful item-header read consumes the 8 header bytes. -/
theorem readItemHeader_ok {ts : TransferSyntax} {bs ib rest : Bytes}
    (h : readItemHeader ts bs = .ok (ib, rest)) :
    ib.length + rest.length + 8 ≤ bs.length := by
  unfold readItemHeader at h
  split at h
  · cases h
  case h_2 t r1 heq1 =>
    have h1 := readTag_ok heq1
    split at h
    · split at h
      · cases h
      case h_2 len r2 heq2 =>
        have h2 := readUInt_ok heq2
        split at h
        · cases h
        · have h3 := readBytes_ok h
          omega
    · cases h

mutual

/-- Modelled from the spec (ElementCodec decode): interpret one
element's value bytes: sequences recurse into item parsing under the
depth guard; every other VR keeps the raw payload losslessly. -/
def parseValue (ts : TransferSyntax) (depth : Nat) (t : Tag)
    (vr : VRCode) (v : Bytes) : Except FormatError DataElement :=
  if vr == vrSQ then
    if depth = 0 then .error .depthExceeded
    else
      match parseItems ts (depth - 1) v with
      | .error e => .error e
      | .ok items => .ok (.seq t items)
  else .ok (.raw t vr v)
termination_by (v.length, 1)
decreasing_by
  exact Prod.Lex.right v.length (by omega)

/-- Modelled from the spec (§4.1): parse the items of a sequence body:
each item is the reserved item tag (FFFE,E000), a 4-byte explicit
length, and a nested data set of exactly that many bytes. -/
def parseItems (ts : TransferSyntax) (depth : Nat) (bs : Bytes) :
    Except FormatError (List DataSet) :=
  if bs.isEmpty then .ok []
  else
    match hh : readItemHeader ts bs with
    | .error e => .error e
    | .ok (ib, rest) =>
      match parseDataSet ts depth ib with
      | .error e => .error e
      | .ok ds =>
        match parseItems ts depth rest with
        | .error e => .error e
        | .ok items => .ok (ds :: items)
termination_by (bs.length, 0)
decreasing_by
  · have hB := readItemHeader_ok hh
    exact Prod.Lex.left _ _ (by omega)
  · have hB := readItemHeader_ok hh
    exact Prod.Lex.left _ _ (by omega)

/-- Modelled from the spec (DatasetParser): parse elements in stream
order until the buffer is exhausted. -/
def parseDataSet (ts : TransferSyntax) (depth : Nat) (bs : Bytes) :
    Except FormatError DataSet :=
  if bs.isEmpty then .ok []
  else
    match hh : readElemHeader ts bs with
    | .error e => .error e
    | .ok (t, vr, v, rest) =>
      match parseValue ts depth t vr v with
      | .error e => .error e
      | .ok e =>
        match parseDataSet ts depth rest with
        | .error e => .error e
        | .ok ds => .ok (e :: ds)
termination_by (bs.length, 2)
decreasing_by
  · have hH := readElemHeader_ok hh
    exact Prod.Lex.left _ _ (by omega)
  · have hH := readElemHeader_ok hh
    exact Prod.Lex.left _ _ (by omega)

end

/-! ### Nesting depth and writable well-formedness -/

mutual

/-- Nesting depth of one element: 0 for a raw element, one more than the
deepest item for a sequence. -/
def elemDepth : DataElement → Nat
  | .raw _ _ _ => 0
  | .seq _ items => itemsDepth items + 1

/-- Nesting depth of a list of items. -/
def itemsDepth : List DataSet → Nat
  | [] => 0
  | ds :: rest => max (dsDepth ds) (itemsDepth rest)

/-- Nesting depth of a data set. -/
def dsDepth : DataSet → Nat
  | [] => 0
  | e :: rest => max (elemDepth e) (dsDepth rest)

end

/-- Modelled from the spec (§4.1): the fixed safety limit bounding
sequence recursion depth. -/
def maxSeqDepth : Nat := 100

mutual

/-- A data element expressible in the given transfer syntax: its tag is
16-bit wire-representable, its value fits the VR's length field, raw
elements never carry the sequence VR, byte values are bytes, and under
implicit VR the element's VR is exactly what dictionary resolution will
reproduce.  Sequence bodies must fit their 4-byte length field. -/
def elemWF (ts : TransferSyntax) : DataElement → Bool
  | .raw t vr v =>
    t.wf && rawFits vr v && !(vr == vrSQ) && v.all (· < 256) &&
    (!ts.implicitVR || (dictVR t).getD vrUN == vr)
  | .seq t items =>
    t.wf && (!ts.implicitVR || dictVR t == some vrSQ) &&
    (match encodeItems ts items with
     | .ok b => decide (b.length < undefLen)
     | .error _ => false) &&
    itemsWF ts items

/-- All items of a sequence are expressible. -/
def itemsWF (ts : TransferSyntax) : List DataSet → Bool
  | [] => true
  | ds :: rest => dsWF ts ds && itemsWF ts rest

/-- All elements of a data set are expressible. -/
def dsWF (ts : TransferSyntax) : DataSet → Bool
  | [] => true
  | e :: rest => elemWF ts e && dsWF ts rest

end

/-! ### Reader/writer round-trip lemmas -/

theorem exceptBind_ok {ε α β : Type} (a : α) (f : α → Except ε β) :
    (Except.ok a >>= f) = f a := rfl

theorem exceptBind_error {ε α β : Type} (e : ε) (f : α → Except ε β) :
    ((Except.error e : Except ε α) >>= f) = Except.error e := rfl

theorem readTag_writeTag (ts : TransferSyntax) (t : Tag) (rest : Bytes)
    (ht : t.wf = true) :
    readTag ts (writeTag ts t ++ rest) = .ok (t, rest) := by
  rw [Tag.wf, Bool.and_eq_true, decide_eq_true_eq, decide_eq_true_eq] at ht
  have hg : t.group < 256 ^ 2 := by omega
  have he : t.element < 256 ^ 2 := by omega
  rw [writeTag, List.append_assoc, readTag]
  simp only [readUInt_natToBytes ts.bigEndian 2 t.group _ hg,
    readUInt_natToBytes ts.bigEndian 2 t.element rest he]

/-- The VR the decoder reports for an element: read from the stream for
explicit VR, resolved through the dictionary (UN fallback) for implicit
VR. -/
def resolveVR (ts : TransferSyntax) (t : Tag) (vr : VRCode) : VRCode :=
  if ts.implicitVR then (dictVR t).getD vrUN else vr

theorem undefLen_lt_pow4 : undefLen < 256 ^ 4 := by decide

theorem readElemHeader_encoded (ts : TransferSyntax) (t : Tag)
    (vr : VRCode) (v rest : Bytes) (ht : t.wf = true)
    (hlong : v.length < undefLen)
    (hshort : ts.implicitVR = false → vrLong vr = false →
      v.length ≤ 65535) :
    readElemHeader ts
        (writeTag ts t ++ (writeHeader ts vr v.length ++ (v ++ rest))) =
      .ok (t, resolveVR ts t vr, v, rest) := by
  have hne : v.length ≠ undefLen := Nat.ne_of_lt hlong
  have h4 : v.length < 256 ^ 4 := lt_trans hlong undefLen_lt_pow4
  have h00 : ∀ X : Bytes, readBytes 2 (0 :: 0 :: X) = .ok ([0, 0], X) :=
    fun X => readBytes_exact 2 [0, 0] X rfl
  rw [readElemHeader]
  simp only [readTag_writeTag ts t _ ht]
  cases himp : ts.implicitVR with
  | true =>
    simp [himp, writeHeader, resolveVR,
      readUInt_natToBytes ts.bigEndian 4 v.length _ h4, hne,
      readBytes_append]
  | false =>
    cases hlv : vrLong vr with
    | true =>
      simp [himp, writeHeader, hlv, readVRBytes, resolveVR, h00,
        readUInt_natToBytes ts.bigEndian 4 v.length _ h4, hne,
        readBytes_append]
    | false =>
      have hs := hshort himp hlv
      have h2 : v.length < 256 ^ 2 := by
        have hp : (256 : Nat) ^ 2 = 65536 := by norm_num
        omega
      simp [himp, writeHeader, hlv, readVRBytes, resolveVR,
        readUInt_natToBytes ts.bigEndian 2 v.length _ h2,
        readBytes_append]

theorem writeTag_length (ts : TransferSyntax) (t : Tag) :
    (writeTag ts t).length = 4 := by
  simp [writeTag, natToBytes_length]

theorem itemTag_wf : itemTag.wf = true := by decide

theorem readItemHeader_encoded (ts : TransferSyntax) (ib rest : Bytes)
    (hlen : ib.length < undefLen) :
    readItemHeader ts (writeTag ts itemTag ++
        (natToBytes ts.bigEndian 4 ib.length ++ (ib ++ rest))) =
      .ok (ib, rest) := by
  have h4 : ib.length < 256 ^ 4 := lt_trans hlen undefLen_lt_pow4
  rw [readItemHeader]
  simp only [readTag_writeTag ts itemTag _ itemTag_wf]
  rw [if_pos (by simp)]
  simp only [readUInt_natToBytes ts.bigEndian 4 ib.length _ h4]
  rw [if_neg (Nat.ne_of_lt hlen), readBytes_append]

theorem writeHeader_length_ge (ts : TransferSyntax) (vr : VRCode)
    (n : Nat) : 4 ≤ (writeHeader ts vr n).length := by
  unfold writeHeader
  split
  · simp [natToBytes_length]
  · split <;> simp [natToBytes_length]

/-- `rawFits` gives the bounds needed for the length field to round-trip. -/
theorem rawFits_bounds {vr : VRCode} {v : Bytes}
    (h : rawFits vr v = true) :
    v.length < undefLen ∧ (vrLong vr = false → v.length ≤ 65535) := by
  rw [rawFits, Bool.and_eq_true] at h
  obtain ⟨h1, -⟩ := h
  constructor
  · rcases hlv : vrLong vr with - | -
    · rw [hlv, if_neg (by simp)] at h1
      have := decide_eq_true_eq.mp h1
      unfold undefLen; omega
    · rw [hlv, if_pos rfl] at h1
      exact decide_eq_true_eq.mp h1
  · intro hlv
    rw [hlv, if_neg (by simp)] at h1
    exact decide_eq_true_eq.mp h1

theorem append_isEmpty_false {l x : Bytes} (h : l.length = 4) :
    (l ++ x).isEmpty = false := by
  cases l with
  | nil => simp at h
  | cons a r => rfl

mutual

/-- Round trip of one element: the encoded bytes parse back to the same
element (header and value), for any continuation of the stream. -/
theorem encodeElement_roundtrip (ts : TransferSyntax) (d : Nat)
    (e : DataElement) (hw : elemWF ts e = true) (hd : elemDepth e ≤ d)
    (b : Bytes) (hb : encodeElement ts e = .ok b) :
    8 ≤ b.length ∧ ∃ v, parseValue ts d e.tag e.vr v = .ok e ∧
      ∀ rest, readElemHeader ts (b ++ rest) = .ok (e.tag, e.vr, v, rest) := by
  cases e with
  | raw t vr v =>
    rw [elemWF, Bool.and_eq_true, Bool.and_eq_true, Bool.and_eq_true,
      Bool.and_eq_true] at hw
    obtain ⟨⟨⟨⟨ht, hfits⟩, hnsq⟩, -⟩, hdict⟩ := hw
    rw [encodeElement, if_pos hfits, Except.ok.injEq] at hb
    subst hb
    obtain ⟨hlong, hshort⟩ := rawFits_bounds hfits
    have hvr : resolveVR ts t vr = vr := by
      rw [resolveVR]
      cases himp : ts.implicitVR with
      | true =>
        rw [himp] at hdict
        simp only [Bool.not_true, Bool.false_or] at hdict
        rw [if_pos rfl]
        exact eq_of_beq hdict
      | false => rw [if_neg (by simp)]
    constructor
    · rw [List.length_append, List.length_append, writeTag_length]
      have := writeHeader_length_ge ts vr v.length
      omega
    · refine ⟨v, ?_, ?_⟩
      · have hnsq2 : (vr == vrSQ) = false := by
          revert hnsq; cases vr == vrSQ <;> simp
        simp only [DataElement.tag, DataElement.vr]
        rw [parseValue]
        rw [if_neg (by simp [hnsq2])]
      · intro rest
        rw [DataElement.tag, DataElement.vr, List.append_assoc,
          List.append_assoc]
        rw [readElemHeader_encoded ts t vr v rest ht hlong
          (fun _ hlv => hshort hlv), hvr]
  | seq t items =>
    rw [elemWF, Bool.and_eq_true, Bool.and_eq_true, Bool.and_eq_true]
      at hw
    obtain ⟨⟨⟨ht, hdict⟩, hfit⟩, hiw⟩ := hw
    rw [encodeElement] at hb
    rcases hbody : encodeItems ts items with e0 | body
    · rw [hbody, exceptBind_error] at hb; cases hb
    rw [hbody] at hfit hb
    rw [exceptBind_ok] at hb
    rcases hlen : decide (body.length < undefLen) with - | -
    · rw [decide_eq_false_iff_not] at hlen
      rw [if_neg hlen] at hb; cases hb
    rw [decide_eq_true_eq] at hlen
    rw [if_pos hlen, Except.ok.injEq] at hb
    subst hb
    have hvr : resolveVR ts t vrSQ = vrSQ := by
      rw [resolveVR]
      cases himp : ts.implicitVR with
      | true =>
        rw [himp] at hdict
        simp only [Bool.not_true, Bool.false_or] at hdict
        rw [if_pos rfl]
        have hde := eq_of_beq hdict
        rw [hde]; rfl
      | false => rw [if_neg (by simp)]
    have hdep : itemsDepth items + 1 ≤ d := by
      rw [elemDepth] at hd; exact hd
    constructor
    · rw [List.length_append, List.length_append, writeTag_length]
      have := writeHeader_length_ge ts vrSQ body.length
      omega
    · refine ⟨body, ?_, ?_⟩
      · simp only [DataElement.tag, DataElement.vr]
        rw [parseValue]
        rw [if_pos (by simp)]
        rw [if_neg (by omega)]
        rw [encodeItems_roundtrip ts (d - 1) items hiw (by omega)
          body hbody hlen]
      · intro rest
        rw [DataElement.tag, DataElement.vr, List.append_assoc,
          List.append_assoc]
        rw [readElemHeader_encoded ts t vrSQ body rest ht hlen
          (fun _ hlv => by cases hlv), hvr]

/-- Round trip of a sequence body: the encoded items parse back to the
same item list. -/
theorem encodeItems_roundtrip (ts : TransferSyntax) (d : Nat)
    (items : List DataSet) (hw : itemsWF ts items = true)
    (hdep : itemsDepth items ≤ d) (b : Bytes)
    (hb : encodeItems ts items = .ok b) (hlen : b.length < undefLen) :
    parseItems ts d b = .ok items := by
  cases items with
  | nil =>
    rw [encodeItems, Except.ok.injEq] at hb
    subst hb
    simp [parseItems]
  | cons ds rest =>
    rw [itemsWF, Bool.and_eq_true] at hw
    obtain ⟨hw1, hw2⟩ := hw
    rw [itemsDepth, max_le_iff] at hdep
    rw [encodeItems] at hb
    rcases h1 : encodeDataSet ts ds with e0 | bds
    · rw [h1, exceptBind_error] at hb; cases hb
    rw [h1, exceptBind_ok] at hb
    rcases h2 : encodeItems ts rest with e0 | brest
    · rw [h2, exceptBind_error] at hb; cases hb
    rw [h2, exceptBind_ok, Except.ok.injEq] at hb
    subst hb
    have hlens : bds.length < undefLen ∧ brest.length < undefLen := by
      rw [List.length_append, List.length_append, List.length_append,
        writeTag_length, natToBytes_length] at hlen
      omega
    simp only [List.append_assoc]
    rw [parseItems,
      if_neg (by simp [append_isEmpty_false (writeTag_length ts itemTag)])]
    split
    next e0 heq =>
      rw [readItemHeader_encoded ts bds brest hlens.1] at heq
      cases heq
    next ib0 rest0 heq =>
      rw [readItemHeader_encoded ts bds brest hlens.1, Except.ok.injEq,
        Prod.mk.injEq] at heq
      obtain ⟨hib, hrest⟩ := heq
      subst hib; subst hrest
      rw [encodeDataSet_roundtrip ts d ds hw1 hdep.1 bds h1]
      rw [encodeItems_roundtrip ts d rest hw2 hdep.2 brest h2 hlens.2]

/-- Round trip of a data set: the encoded elements parse back, in
order. -/
theorem encodeDataSet_roundtrip (ts : TransferSyntax) (d : Nat)
    (ds : DataSet) (hw : dsWF ts ds = true) (hdep : dsDepth ds ≤ d)
    (b : Bytes) (hb : encodeDataSet ts ds = .ok b) :
    parseDataSet ts d b = .ok ds := by
  cases ds with
  | nil =>
    rw [encodeDataSet, Except.ok.injEq] at hb
    subst hb
    simp [parseDataSet]
  | cons e rest =>
    rw [dsWF, Bool.and_eq_true] at hw
    obtain ⟨hw1, hw2⟩ := hw
    rw [dsDepth, max_le_iff] at hdep
    rw [encodeDataSet] at hb
    rcases h1 : encodeElement ts e with e0 | be
    · rw [h1, exceptBind_error] at hb; cases hb
    rw [h1, exceptBind_ok] at hb
    rcases h2 : encodeDataSet ts rest with e0 | brest
    · rw [h2, exceptBind_error] at hb; cases hb
    rw [h2, exceptBind_ok, Except.ok.injEq] at hb
    subst hb
    obtain ⟨hbe8, v, hpv, hred⟩ :=
      encodeElement_roundtrip ts d e hw1 hdep.1 be h1
    rw [parseDataSet, if_neg (by
      intro hemp
      rw [List.isEmpty_eq_true, List.append_eq_nil] at hemp
      rw [hemp.1] at hbe8
      simp only [List.length_nil] at hbe8
      omega)]
    split
    next e0 heq =>
      rw [hred brest] at heq
      cases heq
    next t0 vr0 v0 rest0 heq =>
      rw [hred brest, Except.ok.injEq, Prod.mk.injEq, Prod.mk.injEq,
        Prod.mk.injEq] at heq
      obtain ⟨hteq, hvreq, hveq, hreq⟩ := heq
      subst hteq; subst hvreq; subst hveq; subst hreq
      rw [hpv]
      rw [encodeDataSet_roundtrip ts d rest hw2 hdep.2 brest h2]

end

/-! ### Full-stream writer and parser (preamble, magic, meta header)

Modelled from the spec (§4.2, §4.3, §6): a Part-10 stream is a 128-byte
preamble, the "DICM" magic, the meta-information header — always
explicit-VR little-endian, led by a group-length element whose value is
the byte length of the remaining meta elements and containing the
transfer-syntax UID element (0002,0010) — then the body under the
transfer syntax named by that UID. -/

/-- The 4 magic bytes "DICM". -/
def dicmBytes : Bytes := strBytes "DICM"

/-- The 128-byte zero preamble written by the writer. -/
def preambleBytes : Bytes := List.replicate 128 0

/-- The meta group-length tag (0002,0000). -/
def glTag : Tag := ⟨0x0002, 0x0000⟩

/-- The transfer-syntax UID tag (0002,0010). -/
def tsUIDTag : Tag := ⟨0x0002, 0x0010⟩

/-- Modelled from the spec (§3, invariant): the transfer syntax of the
meta-information header is always explicit-VR little-endian, whatever
the body's transfer syntax. -/
def metaTS : TransferSyntax := tsExplicitLE

/-- The transfer-syntax UID element the writer puts in the meta header. -/
def tsUIDElem (ts : TransferSyntax) : DataElement :=
  .raw tsUIDTag vrUI (tsUID ts)

/-- Modelled from the spec (DatasetWriter): write the preamble, the
magic, the meta header under `metaTS` (group length recomputed from the
serialized meta elements), then the body under the target transfer
syntax. -/
def writeFull (ts : TransferSyntax) (body : DataSet) :
    Except WriteValueError Bytes := do
  let mb ← encodeDataSet metaTS [tsUIDElem ts]
  let gl ← encodeElement metaTS (.raw glTag vrUL (natToBytesLE 4 mb.length))
  let bb ← encodeDataSet ts body
  .ok (preambleBytes ++ dicmBytes ++ gl ++ mb ++ bb)

/-- Look up the raw payload of the element with the given tag. -/
def lookupRaw (ds : DataSet) (t : Tag) : Option Bytes :=
  match ds.find? (fun e => e.tag == t) with
  | some (.raw _ _ v) => some v
  | _ => none

/-- Modelled from the spec (§4.2): after the magic, parse the meta
group-length element and the meta header under explicit-VR
little-endian, resolve the transfer syntax from the UID element, then
parse the body under that transfer syntax. -/
def parseMetaBody (bs : Bytes) :
    Except FormatError (TransferSyntax × DataSet × DataSet) :=
  match readElemHeader metaTS bs with
  | .error e => .error e
  | .ok (t, _, v, r1) =>
    if t = glTag then
      match readBytes (bytesToNat metaTS.bigEndian v) r1 with
      | .error e => .error e
      | .ok (mb, r2) =>
        match parseDataSet metaTS maxSeqDepth mb with
        | .error e => .error e
        | .ok meta =>
          match lookupRaw meta tsUIDTag with
          | none => .error .unsupportedTransferSyntax
          | some uid =>
            match uidToTS uid with
            | none => .error .unsupportedTransferSyntax
            | some ts =>
              match parseDataSet ts maxSeqDepth r2 with
              | .error e => .error e
              | .ok body => .ok (ts, meta, body)
    else .error .badMetaHeader

/-- Modelled from the spec (§4.2, §6): a Part-10 stream: skip the
128-byte preamble, check the "DICM" magic (failure is fatal), then parse
the meta header and body. -/
def parseFull (bs : Bytes) :
    Except FormatError (TransferSyntax × DataSet × DataSet) :=
  if (bs.drop 128).take 4 = dicmBytes then parseMetaBody (bs.drop 132)
  else .error .badMagic

/-- A well-formed data set encodes successfully (the element-level fit
checks are the only failure conditions of the writer). -/
theorem dsWF_encode_ok (ts : TransferSyntax) (ds : DataSet)
    (hw : dsWF ts ds = true) : ∃ b, encodeDataSet ts ds = .ok b := by
  induction ds with
  | nil => exact ⟨[], rfl⟩
  | cons e rest ih =>
    rw [dsWF, Bool.and_eq_true] at hw
    obtain ⟨hw1, hw2⟩ := hw
    obtain ⟨br, hbr⟩ := ih hw2
    have he : ∃ be, encodeElement ts e = .ok be := by
      cases e with
      | raw t vr v =>
        rw [elemWF, Bool.and_eq_true, Bool.and_eq_true, Bool.and_eq_true,
          Bool.and_eq_true] at hw1
        exact ⟨_, by rw [encodeElement, if_pos hw1.1.1.1.2]⟩
      | seq t items =>
        rw [elemWF, Bool.and_eq_true, Bool.and_eq_true] at hw1
        obtain ⟨⟨-, hfit⟩, -⟩ := hw1
        rcases hbody : encodeItems ts items with e0 | body
        · rw [hbody] at hfit; cases hfit
        · rw [hbody] at hfit
          rw [decide_eq_true_eq] at hfit
          exact ⟨_, by rw [encodeElement, hbody, exceptBind_ok,
            if_pos hfit]⟩
    obtain ⟨be, hbe⟩ := he
    exact ⟨be ++ br, by rw [encodeDataSet, hbe, exceptBind_ok, hbr,
      exceptBind_ok]⟩

theorem mem_supportedTS {ts : TransferSyntax} (h : ts ∈ supportedTS) :
    ts = tsImplicitLE ∨ ts = tsExplicitLE ∨ ts = tsExplicitBE := by
  simpa [supportedTS] using h

theorem drop128_preamble (X : Bytes) : (preambleBytes ++ X).drop 128 = X := by
  have h : preambleBytes.length = 128 := by simp [preambleBytes]
  rw [← h, List.drop_left]

theorem take4_dicm (X : Bytes) : (dicmBytes ++ X).take 4 = dicmBytes := by
  have h : dicmBytes.length = 4 := by rfl
  rw [← h, List.take_left]

theorem drop132_full (X : Bytes) :
    (preambleBytes ++ (dicmBytes ++ X)).drop 132 = X := by
  rw [← List.append_assoc]
  have h : (preambleBytes ++ dicmBytes).length = 132 := by rfl
  rw [← h, List.drop_left]

theorem lookupRaw_single (t : Tag) (vr : VRCode) (v : Bytes) :
    lookupRaw [.raw t vr v] t = some v := by
  simp [lookupRaw, List.find?, DataElement.tag]

/-- Full-stream round trip: a well-formed body written under any
supported transfer syntax parses back, through the explicit-VR
little-endian meta header, to the same body and transfer syntax. -/
theorem writeFull_parseFull (ts : TransferSyntax) (hts : ts ∈ supportedTS)
    (body : DataSet) (hw : dsWF ts body = true)
    (hd : dsDepth body ≤ maxSeqDepth) :
    ∃ b, writeFull ts body = .ok b ∧
      parseFull b = .ok (ts, [tsUIDElem ts], body) := by
  obtain ⟨bb, hbb⟩ := dsWF_encode_ok ts body hw
  have hmwf : dsWF metaTS [tsUIDElem ts] = true := by
    rcases mem_supportedTS hts with h | h | h <;> subst h <;> decide
  have huid : uidToTS (tsUID ts) = some ts := by
    rcases mem_supportedTS hts with h | h | h <;> subst h <;> decide
  have huilen : (tsUID ts).length ≤ 19 := by
    rcases mem_supportedTS hts with h | h | h <;> subst h <;> decide
  have hfitsUI : rawFits vrUI (tsUID ts) = true := by
    rcases mem_supportedTS hts with h | h | h <;> subst h <;> decide
  -- the encoded meta header element
  have hmb : encodeDataSet metaTS [tsUIDElem ts] =
      .ok (writeTag metaTS tsUIDTag ++
        (writeHeader metaTS vrUI (tsUID ts).length ++ tsUID ts)) := by
    rw [encodeDataSet, tsUIDElem, encodeElement, if_pos hfitsUI,
      exceptBind_ok, encodeDataSet, exceptBind_ok]
    simp [List.append_assoc]
  have hmetalen : (writeTag metaTS tsUIDTag ++
      (writeHeader metaTS vrUI (tsUID ts).length ++ tsUID ts)).length =
      8 + (tsUID ts).length := by
    have hwh : (writeHeader metaTS vrUI (tsUID ts).length).length = 4 := by
      rw [writeHeader]
      rw [if_neg (by decide), if_neg (by decide)]
      simp [natToBytes_length]
    simp [writeTag_length, hwh]
    omega
  set mbv : Bytes := writeTag metaTS tsUIDTag ++
    (writeHeader metaTS vrUI (tsUID ts).length ++ tsUID ts) with hmbv
  have hglv_len : (natToBytesLE 4 mbv.length).length = 4 :=
    natToBytesLE_length 4 mbv.length
  have hfitsGL : rawFits vrUL (natToBytesLE 4 mbv.length) = true := by
    rw [rawFits, hglv_len]
    decide
  have hgl : encodeElement metaTS
      (.raw glTag vrUL (natToBytesLE 4 mbv.length)) =
      .ok (writeTag metaTS glTag ++
        writeHeader metaTS vrUL (natToBytesLE 4 mbv.length).length ++
        natToBytesLE 4 mbv.length) := by
    rw [encodeElement, if_pos hfitsGL]
  refine ⟨preambleBytes ++ dicmBytes ++
    (writeTag metaTS glTag ++
      writeHeader metaTS vrUL (natToBytesLE 4 mbv.length).length ++
      natToBytesLE 4 mbv.length) ++ mbv ++ bb, ?_, ?_⟩
  · rw [writeFull, hmb, exceptBind_ok, hgl, exceptBind_ok, hbb,
      exceptBind_ok]
  · rw [parseFull]
    simp only [List.append_assoc]
    rw [if_pos (by rw [drop128_preamble, take4_dicm]), drop132_full,
      parseMetaBody]
    have hread := readElemHeader_encoded metaTS glTag vrUL
      (natToBytesLE 4 mbv.length) (mbv ++ bb) (by decide)
      (by rw [hglv_len]; decide) (fun _ _ => by rw [hglv_len]; omega)
    simp only [hread]
    rw [if_pos trivial]
    have hmbv4 : mbv.length < 256 ^ 4 := by
      rw [hmbv, hmetalen]
      have : (256 : Nat) ^ 4 = 4294967296 := by norm_num
      omega
    have hread2 : bytesToNat metaTS.bigEndian (natToBytesLE 4 mbv.length) =
        mbv.length := by
      have : metaTS.bigEndian = false := rfl
      rw [this, bytesToNat]
      simp only [Bool.false_eq_true, if_false]
      exact bytesToNatLE_natToBytesLE 4 mbv.length hmbv4
    rw [hread2]
    have hsplit : readBytes mbv.length (mbv ++ bb) = .ok (mbv, bb) :=
      readBytes_append mbv bb
    simp only [hsplit]
    have hmeta : parseDataSet metaTS maxSeqDepth mbv =
        .ok [tsUIDElem ts] := by
      refine encodeDataSet_roundtrip metaTS maxSeqDepth [tsUIDElem ts]
        hmwf ?_ mbv hmb
      simp [dsDepth, elemDepth, tsUIDElem]
    simp only [hmeta]
    rw [tsUIDElem]
    simp only [lookupRaw_single, huid,
      encodeDataSet_roundtrip ts maxSeqDepth body hw hd bb hbb]

/-! ### Writer failure characterization

Modelled from the spec (§4.3, §7): the writer fails exactly on a value
that does not fit its VR's length field (including a sequence body
overflowing its 4-byte length field) or a numeric value inconsistent
with the VR's width; the error names the offending tag.  `badTags*`
collects the tags of exactly the offending elements. -/

mutual

/-- Tags of the offending elements within one element (the element
itself when its value fails the fit check, plus offenders nested in
sequence items). -/
def badTagsElem (ts : TransferSyntax) : DataElement → List Tag
  | .raw t vr v => if rawFits vr v then [] else [t]
  | .seq t items =>
    badTagsItems ts items ++
    (match encodeItems ts items with
     | .ok b => if b.length < undefLen then [] else [t]
     | .error _ => [])

/-- Offending tags within a list of sequence items. -/
def badTagsItems (ts : TransferSyntax) : List DataSet → List Tag
  | [] => []
  | ds :: rest => badTagsDS ts ds ++ badTagsItems ts rest

/-- Offending tags within a data set. -/
def badTagsDS (ts : TransferSyntax) : DataSet → List Tag
  | [] => []
  | e :: rest => badTagsElem ts e ++ badTagsDS ts rest

end

mutual

/-- The element encoder succeeds exactly when no offending tag exists,
and on failure reports an offending tag. -/
theorem encodeElement_badTags (ts : TransferSyntax) (e : DataElement) :
    (∀ b, encodeElement ts e = .ok b → badTagsElem ts e = []) ∧
    (∀ we, encodeElement ts e = .error we →
      we.tag ∈ badTagsElem ts e) := by
  cases e with
  | raw t vr v =>
    rcases hf : rawFits vr v with - | -
    · refine ⟨fun b hb => ?_, fun we hwe => ?_⟩
      · rw [encodeElement, if_neg (by simp [hf])] at hb; cases hb
      · rw [encodeElement, if_neg (by simp [hf])] at hwe
        rw [badTagsElem, if_neg (by simp [hf])]
        rw [Except.error.injEq] at hwe
        subst hwe
        simp
    · refine ⟨fun b hb => ?_, fun we hwe => ?_⟩
      · rw [badTagsElem, if_pos hf]
      · rw [encodeElement, if_pos hf] at hwe; cases hwe
  | seq t items =>
    rcases hbody : encodeItems ts items with we0 | body
    · have hit := (encodeItems_badTags ts items).2 we0 hbody
      refine ⟨fun b hb => ?_, fun we hwe => ?_⟩
      · rw [encodeElement, hbody, exceptBind_error] at hb; cases hb
      · rw [encodeElement, hbody, exceptBind_error,
          Except.error.injEq] at hwe
        subst hwe
        rw [badTagsElem, hbody]
        exact List.mem_append_left _ hit
    · have hit := (encodeItems_badTags ts items).1 body hbody
      rcases hfit : decide (body.length < undefLen) with - | -
      · rw [decide_eq_false_iff_not] at hfit
        refine ⟨fun b hb => ?_, fun we hwe => ?_⟩
        · rw [encodeElement, hbody, exceptBind_ok, if_neg hfit] at hb
          cases hb
        · rw [encodeElement, hbody, exceptBind_ok, if_neg hfit,
            Except.error.injEq] at hwe
          subst hwe
          rw [badTagsElem, hbody, hit]
          simp [hfit]
      · rw [decide_eq_true_eq] at hfit
        refine ⟨fun b hb => ?_, fun we hwe => ?_⟩
        · rw [badTagsElem, hbody, hit]
          simp [hfit]
        · rw [encodeElement, hbody, exceptBind_ok, if_pos hfit] at hwe
          cases hwe

/-- The item-list encoder succeeds exactly when no offending tag exists,
and on failure reports an offending tag. -/
theorem encodeItems_badTags (ts : TransferSyntax) (items : List DataSet) :
    (∀ b, encodeItems ts items = .ok b → badTagsItems ts items = []) ∧
    (∀ we, encodeItems ts items = .error we →
      we.tag ∈ badTagsItems ts items) := by
  cases items with
  | nil =>
    refine ⟨fun b hb => rfl, fun we hwe => ?_⟩
    rw [encodeItems] at hwe; cases hwe
  | cons ds rest =>
    rcases h1 : encodeDataSet ts ds with we0 | bds
    · have hd := (encodeDataSet_badTags ts ds).2 we0 h1
      refine ⟨fun b hb => ?_, fun we hwe => ?_⟩
      · rw [encodeItems, h1, exceptBind_error] at hb; cases hb
      · rw [encodeItems, h1, exceptBind_error, Except.error.injEq] at hwe
        subst hwe
        rw [badTagsItems]
        exact List.mem_append_left _ hd
    · have hd := (encodeDataSet_badTags ts ds).1 bds h1
      rcases h2 : encodeItems ts rest with we0 | brest
      · have hr := (encodeItems_badTags ts rest).2 we0 h2
        refine ⟨fun b hb => ?_, fun we hwe => ?_⟩
        · rw [encodeItems, h1, exceptBind_ok, h2, exceptBind_error] at hb
          cases hb
        · rw [encodeItems, h1, exceptBind_ok, h2, exceptBind_error,
            Except.error.injEq] at hwe
          subst hwe
          rw [badTagsItems, hd]
          simpa using hr
      · have hr := (encodeItems_badTags ts rest).1 brest h2
        refine ⟨fun b hb => ?_, fun we hwe => ?_⟩
        · rw [badTagsItems, hd, hr]; rfl
        · rw [encodeItems, h1, exceptBind_ok, h2, exceptBind_ok] at hwe
          cases hwe

/-- The data-set encoder succeeds exactly when no offending tag exists,
and on failure reports an offending tag. -/
theorem encodeDataSet_badTags (ts : TransferSyntax) (ds : DataSet) :
    (∀ b, encodeDataSet ts ds = .ok b → badTagsDS ts ds = []) ∧
    (∀ we, encodeDataSet ts ds = .error we →
      we.tag ∈ badTagsDS ts ds) := by
  cases ds with
  | nil =>
    refine ⟨fun b hb => rfl, fun we hwe => ?_⟩
    rw [encodeDataSet] at hwe; cases hwe
  | cons e rest =>
    rcases h1 : encodeElement ts e with we0 | be
    · have he := (encodeElement_badTags ts e).2 we0 h1
      refine ⟨fun b hb => ?_, fun we hwe => ?_⟩
      · rw [encodeDataSet, h1, exceptBind_error] at hb; cases hb
      · rw [encodeDataSet, h1, exceptBind_error, Except.error.injEq] at hwe
        subst hwe
        rw [badTagsDS]
        exact List.mem_append_left _ he
    · have he := (encodeElement_badTags ts e).1 be h1
      rcases h2 : encodeDataSet ts rest with we0 | brest
      · have hr := (encodeDataSet_badTags ts rest).2 we0 h2
        refine ⟨fun b hb => ?_, fun we hwe => ?_⟩
        · rw [encodeDataSet, h1, exceptBind_ok, h2, exceptBind_error] at hb
          cases hb
        · rw [encodeDataSet, h1, exceptBind_ok, h2, exceptBind_error,
            Except.error.injEq] at hwe
          subst hwe
          rw [badTagsDS, he]
          simpa using hr
      · have hr := (encodeDataSet_badTags ts rest).1 brest h2
        refine ⟨fun b hb => ?_, fun we hwe => ?_⟩
        · rw [badTagsDS, he, hr]; rfl
        · rw [encodeDataSet, h1, exceptBind_ok, h2, exceptBind_ok] at hwe
          cases hwe

end

/-! ### Depth bound of the parser -/

mutual

/-- Any element produced by the value parser respects the depth
budget. -/
theorem parseValue_depth (ts : TransferSyntax) (d : Nat) (t : Tag)
    (vr : VRCode) (v : Bytes) (e : DataElement)
    (h : parseValue ts d t vr v = .ok e) : elemDepth e ≤ d := by
  rw [parseValue] at h
  split at h
  · split at h
    · cases h
    · split at h
      · cases h
      next items heq =>
        rw [Except.ok.injEq] at h
        subst h
        rw [elemDepth]
        have hit := parseItems_depth ts (d - 1) v items heq
        omega
  · rw [Except.ok.injEq] at h
    subst h
    rw [elemDepth]
    omega
termination_by (v.length, 1)
decreasing_by
  exact Prod.Lex.right v.length (by omega)

/-- Any item list produced by the item parser respects the depth
budget. -/
theorem parseItems_depth (ts : TransferSyntax) (d : Nat) (bs : Bytes)
    (items : List DataSet) (h : parseItems ts d bs = .ok items) :
    itemsDepth items ≤ d := by
  rw [parseItems] at h
  split at h
  · rw [Except.ok.injEq] at h
    subst h
    rw [itemsDepth]
    omega
  · split at h
    · cases h
    next ib rest heq =>
      have hB := readItemHeader_ok heq
      split at h
      · cases h
      next ds0 heq2 =>
        split at h
        · cases h
        next items0 heq3 =>
          rw [Except.ok.injEq] at h
          subst h
          rw [itemsDepth]
          exact max_le (parseDataSet_depth ts d ib ds0 heq2)
            (parseItems_depth ts d rest items0 heq3)
termination_by (bs.length, 0)
decreasing_by
  · exact Prod.Lex.left _ _ (by omega)
  · exact Prod.Lex.left _ _ (by omega)

/-- Any data set produced by the parser respects the depth budget. -/
theorem parseDataSet_depth (ts : TransferSyntax) (d : Nat) (bs : Bytes)
    (ds : DataSet) (h : parseDataSet ts d bs = .ok ds) :
    dsDepth ds ≤ d := by
  rw [parseDataSet] at h
  split at h
  · rw [Except.ok.injEq] at h
    subst h
    rw [dsDepth]
    omega
  · split at h
    · cases h
    next t0 vr0 v0 rest0 heq =>
      have hH := readElemHeader_ok heq
      split at h
      · cases h
      next e0 heq2 =>
        split at h
        · cases h
        next ds0 heq3 =>
          rw [Except.ok.injEq] at h
          subst h
          rw [dsDepth]
          exact max_le (parseValue_depth ts d t0 vr0 v0 e0 heq2)
            (parseDataSet_depth ts d rest0 ds0 heq3)
termination_by (bs.length, 2)
decreasing_by
  · exact Prod.Lex.left _ _ (by omega)
  · exact Prod.Lex.left _ _ (by omega)

end

/-! ### Shape lemmas for VR-resolution and truncation facts -/

theorem readBytes_drop {n : Nat} {bs v rest : Bytes}
    (h : readBytes n bs = .ok (v, rest)) :
    rest = bs.drop n ∧ v = bs.take n := by
  unfold readBytes at h
  split at h
  · rw [Except.ok.injEq, Prod.mk.injEq] at h
    exact ⟨h.2.symm, h.1.symm⟩
  · cases h

theorem readUInt_drop {big : Bool} {w : Nat} {bs rest : Bytes} {n : Nat}
    (h : readUInt big w bs = .ok (n, rest)) : rest = bs.drop w := by
  unfold readUInt at h
  split at h
  · cases h
  next v r heq =>
    rw [Except.ok.injEq, Prod.mk.injEq] at h
    obtain ⟨-, hr⟩ := h
    subst hr
    exact (readBytes_drop heq).1

theorem readTag_drop {ts : TransferSyntax} {bs r1 : Bytes} {t : Tag}
    (h : readTag ts bs = .ok (t, r1)) : r1 = bs.drop 4 := by
  unfold readTag at h
  split at h
  · cases h
  next g r heq1 =>
    split at h
    · cases h
    next el r2 heq2 =>
      rw [Except.ok.injEq, Prod.mk.injEq] at h
      obtain ⟨-, hr⟩ := h
      subst hr
      rw [readUInt_drop heq2, readUInt_drop heq1, List.drop_drop]

theorem readVRBytes_shape {bs rest : Bytes} {vr : VRCode}
    (h : readVRBytes bs = .ok (vr, rest)) :
    bs = vr.c1 :: vr.c2 :: rest := by
  unfold readVRBytes at h
  split at h
  next c1 c2 r =>
    rw [Except.ok.injEq, Prod.mk.injEq] at h
    obtain ⟨hv, hr⟩ := h
    subst hv; subst hr
    rfl
  next => cases h

/-- For an explicit-VR stream, the VR of a decoded element is exactly
the 2-byte VR code read from stream positions 4 and 5 (after the
4-byte tag). -/
theorem readElemHeader_explicit_vr {ts : TransferSyntax}
    {bs v rest : Bytes} {t : Tag} {vr : VRCode}
    (himp : ts.implicitVR = false)
    (h : readElemHeader ts bs = .ok (t, vr, v, rest)) :
    (bs.drop 4).take 2 = [vr.c1, vr.c2] := by
  unfold readElemHeader at h
  split at h
  · cases h
  next t0 r1 heq1 =>
    rw [himp] at h
    simp only [Bool.false_eq_true, if_false] at h
    split at h
    · cases h
    next vr0 r2 heq2 =>
      have hshape := readVRBytes_shape heq2
      have hdrop := readTag_drop heq1
      have hvr : vr = vr0 := by
        split at h
        · split at h
          · cases h
          next sk r3 heq3 =>
            split at h
            · cases h
            next len r4 heq4 =>
              split at h
              · cases h
              · split at h
                · cases h
                next v0 rest0 heq5 =>
                  rw [Except.ok.injEq, Prod.mk.injEq, Prod.mk.injEq,
                    Prod.mk.injEq] at h
                  exact h.2.1.symm
        · split at h
          · cases h
          next len r3 heq3 =>
            split at h
            · cases h
            next v0 rest0 heq4 =>
              rw [Except.ok.injEq, Prod.mk.injEq, Prod.mk.injEq,
                Prod.mk.injEq] at h
              exact h.2.1.symm
      rw [hvr, ← hdrop, hshape]
      rfl

/-- For an implicit-VR stream, the VR of a decoded element is the
dictionary lookup result for its tag, with the UN fallback. -/
theorem readElemHeader_implicit_vr {ts : TransferSyntax}
    {bs v rest : Bytes} {t : Tag} {vr : VRCode}
    (himp : ts.implicitVR = true)
    (h : readElemHeader ts bs = .ok (t, vr, v, rest)) :
    vr = (dictVR t).getD vrUN := by
  unfold readElemHeader at h
  split at h
  · cases h
  next t0 r1 heq1 =>
    rw [himp] at h
    simp only [if_true] at h
    split at h
    · cases h
    next len r2 heq2 =>
      split at h
      · cases h
      · split at h
        · cases h
        next v0 rest0 heq3 =>
          rw [Except.ok.injEq, Prod.mk.injEq, Prod.mk.injEq,
            Prod.mk.injEq] at h
          obtain ⟨ht0, hvr0, -, -⟩ := h
          subst ht0
          exact hvr0.symm

/-- A header-level format error aborts the whole data-set parse with
that error. -/
theorem parseDataSet_header_error (ts : TransferSyntax) (d : Nat)
    (bs : Bytes) (e : FormatError) (hne : bs.isEmpty = false)
    (h : readElemHeader ts bs = .error e) :
    parseDataSet ts d bs = .error e := by
  rw [parseDataSet, if_neg (by simp [hne])]
  split
  next e0 heq =>
    have he := h.symm.trans heq
    rw [Except.error.injEq] at he
    rw [he]
  next t0 vr0 v0 rest0 heq =>
    rw [h] at heq
    cases heq

/-- A dictionary miss on an implicit-VR stream is not an error: the
element is retained with VR UN and its raw value bytes unchanged. -/
theorem implicit_dictmiss_roundtrip (ts : TransferSyntax)
    (himp : ts.implicitVR = true) (t : Tag) (v : Bytes) (d : Nat)
    (ht : t.wf = true) (hmiss : dictVR t = none)
    (hv : v.length < undefLen) :
    parseDataSet ts d
        (writeTag ts t ++ (natToBytes ts.bigEndian 4 v.length ++ v)) =
      .ok [.raw t vrUN v] := by
  have hwh : natToBytes ts.bigEndian 4 v.length =
      writeHeader ts vrUN v.length := by
    rw [writeHeader, if_pos (by simp [himp])]
  have hread := readElemHeader_encoded ts t vrUN v [] ht hv
    (fun hexp _ => by rw [himp] at hexp; cases hexp)
  have hres : resolveVR ts t vrUN = vrUN := by
    rw [resolveVR, if_pos (by simp [himp]), hmiss]
    rfl
  rw [hres] at hread
  simp only [List.append_nil] at hread
  rw [hwh]
  rw [parseDataSet,
    if_neg (by simp [append_isEmpty_false (writeTag_length ts t)])]
  split
  next e0 heq =>
    rw [hread] at heq
    cases heq
  next t0 vr0 v0 rest0 heq =>
    rw [hread, Except.ok.injEq, Prod.mk.injEq, Prod.mk.injEq,
      Prod.mk.injEq] at heq
    obtain ⟨h1, h2, h3, h4⟩ := heq
    subst h1; subst h2; subst h3; subst h4
    rw [parseValue, if_neg (by decide)]
    have hnil : parseDataSet ts d ([] : Bytes) = .ok [] := by
      simp [parseDataSet]
    rw [hnil]

/-- An element whose 4-byte length field exceeds the remaining buffer
makes the parse fail (implicit VR, and explicit VR with a long VR). -/
theorem lengthOverflow_error (ts : TransferSyntax) (d : Nat) (t : Tag)
    (len : Nat) (tail : Bytes) (ht : t.wf = true)
    (hlen : len < undefLen) (hover : tail.length < len) :
    (ts.implicitVR = true →
      parseDataSet ts d
        (writeTag ts t ++ (natToBytes ts.bigEndian 4 len ++ tail)) =
        .error .truncated) ∧
    (ts.implicitVR = false → ∀ vr : VRCode, vrLong vr = true →
      parseDataSet ts d
        (writeTag ts t ++ (vr.c1 :: vr.c2 :: 0 :: 0 ::
          (natToBytes ts.bigEndian 4 len ++ tail))) =
        .error .truncated) := by
  have h4 : len < 256 ^ 4 := lt_trans hlen undefLen_lt_pow4
  have hne : len ≠ undefLen := Nat.ne_of_lt hlen
  have hrb : readBytes len tail = .error .truncated := by
    rw [readBytes, if_neg (by omega)]
  constructor
  · intro himp
    refine parseDataSet_header_error ts d _ _
      (append_isEmpty_false (writeTag_length ts t)) ?_
    rw [readElemHeader]
    simp only [readTag_writeTag ts t _ ht]
    rw [if_pos (by simp [himp])]
    simp only [readUInt_natToBytes ts.bigEndian 4 len tail h4]
    rw [if_neg hne, hrb]
  · intro himp vr hlv
    refine parseDataSet_header_error ts d _ _
      (append_isEmpty_false (writeTag_length ts t)) ?_
    rw [readElemHeader]
    simp only [readTag_writeTag ts t _ ht]
    rw [if_neg (by simp [himp])]
    simp only [readVRBytes]
    rw [hlv]
    simp only [if_true]
    have h00 : readBytes 2 (0 :: 0 ::
        (natToBytes ts.bigEndian 4 len ++ tail)) =
        .ok ([0, 0], natToBytes ts.bigEndian 4 len ++ tail) :=
      readBytes_exact 2 [0, 0] _ rfl
    simp only [h00, readUInt_natToBytes ts.bigEndian 4 len tail h4]
    rw [if_neg hne, hrb]

/-! ## Claim theorems -/

/-- C1: Round trip of the codec: every data set expressible in a
supported transfer syntax (within the modelled uncompressed,
explicit-length subset) is reproduced element-for-element — raw value
payloads byte-identical — by decoding the writer's output, through the
meta header, for implicit-VR, explicit-VR little-endian and explicit-VR
big-endian bodies. -/
theorem c1_codec_roundtrip (ts : TransferSyntax) (hts : ts ∈ supportedTS)
    (body : DataSet) (hw : dsWF ts body = true)
    (hd : dsDepth body ≤ maxSeqDepth) :
    ∃ b, writeFull ts body = .ok b ∧
      parseFull b = .ok (ts, [tsUIDElem ts], body) :=
  writeFull_parseFull ts hts body hw hd

/-- C1 witness: a concrete body with a nested sequence round-trips under
explicit-VR big-endian. -/
theorem c1_codec_roundtrip_witness :
    ∃ b, writeFull tsExplicitBE
        [.seq ⟨0x0008, 0x1140⟩ [[.raw ⟨0x0010, 0x0010⟩ vrPN [68, 111]]]] =
        .ok b ∧
      parseFull b = .ok (tsExplicitBE, [tsUIDElem tsExplicitBE],
        [.seq ⟨0x0008, 0x1140⟩ [[.raw ⟨0x0010, 0x0010⟩ vrPN [68, 111]]]]) :=
  c1_codec_roundtrip tsExplicitBE (by decide) _ (by decide) (by decide)

/-- C2: Atomicity: a decode or encode call either returns a complete
result or an error; it never returns both, and an error carries no
data set. -/
theorem c2_atomicity (bs : Bytes) (ts : TransferSyntax) (ds : DataSet) :
    ((∃ r, parseFull bs = .ok r) ∨ (∃ e, parseFull bs = .error e)) ∧
    ¬((∃ r, parseFull bs = .ok r) ∧ (∃ e, parseFull bs = .error e)) ∧
    ((∃ b, writeFull ts ds = .ok b) ∨
      (∃ we, writeFull ts ds = .error we)) ∧
    ¬((∃ b, writeFull ts ds = .ok b) ∧
      (∃ we, writeFull ts ds = .error we)) := by
  refine ⟨?_, ?_, ?_, ?_⟩
  · rcases h : parseFull bs with e | r
    · exact Or.inr ⟨e, rfl⟩
    · exact Or.inl ⟨r, rfl⟩
  · rintro ⟨⟨r, hr⟩, ⟨e, he⟩⟩
    rw [hr] at he
    cases he
  · rcases h : writeFull ts ds with we | b
    · exact Or.inr ⟨we, rfl⟩
    · exact Or.inl ⟨b, rfl⟩
  · rintro ⟨⟨b, hb⟩, ⟨we, hwe⟩⟩
    rw [hb] at hwe
    cases hwe

/-- C2 witness: the empty stream and the empty data set. -/
theorem c2_atomicity_witness :
    ¬((∃ r, parseFull [] = .ok r) ∧ (∃ e, parseFull [] = .error e)) :=
  (c2_atomicity [] tsExplicitLE []).2.1

/-- C3: A 4-byte length field declaring more bytes than remain in the
buffer is fatal: the parse returns `FormatError.truncated` (and, being
an error, yields no data set), both under implicit VR and under
explicit VR with a long (4-byte-length) VR. -/
theorem c3_length_overflow (ts : TransferSyntax) (d : Nat) (t : Tag)
    (len : Nat) (tail : Bytes) (ht : t.wf = true)
    (hlen : len < undefLen) (hover : tail.length < len) :
    (ts.implicitVR = true →
      parseDataSet ts d
        (writeTag ts t ++ (natToBytes ts.bigEndian 4 len ++ tail)) =
        .error .truncated) ∧
    (ts.implicitVR = false → ∀ vr : VRCode, vrLong vr = true →
      parseDataSet ts d
        (writeTag ts t ++ (vr.c1 :: vr.c2 :: 0 :: 0 ::
          (natToBytes ts.bigEndian 4 len ++ tail))) =
        .error .truncated) :=
  lengthOverflow_error ts d t len tail ht hlen hover

/-- C3 witness: a declared length of 100 with an empty remainder is
rejected, under implicit VR and under explicit VR (VR OB). -/
theorem c3_length_overflow_witness :
    parseDataSet tsImplicitLE 5
        (writeTag tsImplicitLE ⟨8, 16⟩ ++
          (natToBytes false 4 100 ++ [])) = .error .truncated ∧
    parseDataSet tsExplicitLE 5
        (writeTag tsExplicitLE ⟨8, 16⟩ ++
          (vrOB.c1 :: vrOB.c2 :: 0 :: 0 :: (natToBytes false 4 100 ++ []))) =
      .error .truncated :=
  ⟨(c3_length_overflow tsImplicitLE 5 ⟨8, 16⟩ 100 [] (by decide)
      (by decide) (by decide)).1 rfl,
   (c3_length_overflow tsExplicitLE 5 ⟨8, 16⟩ 100 [] (by decide)
      (by decide) (by decide)).2 rfl vrOB (by decide)⟩

/-- C4: VR resolution: on explicit-VR streams the decoded VR is the
2-byte VR code read from the stream; on implicit-VR streams it is the
dictionary lookup result with the UN fallback, and a dictionary miss is
not an error — the element is kept with VR UN and byte-identical raw
value. -/
theorem c4_vr_resolution :
    (∀ (ts : TransferSyntax) (bs v rest : Bytes) (t : Tag) (vr : VRCode),
      ts.implicitVR = false →
      readElemHeader ts bs = .ok (t, vr, v, rest) →
      (bs.drop 4).take 2 = [vr.c1, vr.c2]) ∧
    (∀ (ts : TransferSyntax) (bs v rest : Bytes) (t : Tag) (vr : VRCode),
      ts.implicitVR = true →
      readElemHeader ts bs = .ok (t, vr, v, rest) →
      vr = (dictVR t).getD vrUN) ∧
    (∀ (ts : TransferSyntax) (t : Tag) (v : Bytes) (d : Nat),
      ts.implicitVR = true → t.wf = true → dictVR t = none →
      v.length < undefLen →
      parseDataSet ts d
        (writeTag ts t ++ (natToBytes ts.bigEndian 4 v.length ++ v)) =
        .ok [.raw t vrUN v]) :=
  ⟨fun _ _ _ _ _ _ himp h => readElemHeader_explicit_vr himp h,
   fun _ _ _ _ _ _ himp h => readElemHeader_implicit_vr himp h,
   fun ts t v d himp ht hmiss hv =>
     implicit_dictmiss_roundtrip ts himp t v d ht hmiss hv⟩

/-- C4 witness: a concrete explicit-VR element, and a private tag absent
from the dictionary parsed losslessly as UN under implicit VR. -/
theorem c4_vr_resolution_witness :
    ((([8, 0, 22, 0, 85, 73, 2, 0, 49, 50] : Bytes).drop 4).take 2 =
      [vrUI.c1, vrUI.c2]) ∧
    parseDataSet tsImplicitLE 5
        (writeTag tsImplicitLE ⟨9, 1⟩ ++
          (natToBytes false 4 2 ++ [202, 254])) =
      .ok [.raw ⟨9, 1⟩ vrUN [202, 254]] :=
  ⟨c4_vr_resolution.1 tsExplicitLE [8, 0, 22, 0, 85, 73, 2, 0, 49, 50]
      [49, 50] [] ⟨8, 22⟩ vrUI rfl rfl,
   c4_vr_resolution.2.2 tsImplicitLE ⟨9, 1⟩ [202, 254] 5 rfl (by decide)
      (by decide) (by decide)⟩

/-- C5: The meta-information header is always processed under
explicit-VR little-endian (`metaTS`), whatever the body's transfer
syntax: the writer's output splits into preamble, magic, a group-length
element and meta elements all encoded under `metaTS`, then the body
under the target syntax, and those meta bytes parse back under `metaTS`
— including when the body is implicit-VR or big-endian. -/
theorem c5_meta_explicit_le (ts : TransferSyntax) (hts : ts ∈ supportedTS)
    (body : DataSet) (b : Bytes) (h : writeFull ts body = .ok b) :
    metaTS = tsExplicitLE ∧
    ∃ gl mb bb,
      encodeDataSet metaTS [tsUIDElem ts] = .ok mb ∧
      encodeElement metaTS (.raw glTag vrUL (natToBytesLE 4 mb.length)) =
        .ok gl ∧
      encodeDataSet ts body = .ok bb ∧
      b = preambleBytes ++ dicmBytes ++ gl ++ mb ++ bb ∧
      parseDataSet metaTS maxSeqDepth mb = .ok [tsUIDElem ts] := by
  refine ⟨rfl, ?_⟩
  rw [writeFull] at h
  rcases hmb : encodeDataSet metaTS [tsUIDElem ts] with we | mb
  · rw [hmb, exceptBind_error] at h; cases h
  rw [hmb, exceptBind_ok] at h
  rcases hgl : encodeElement metaTS
      (.raw glTag vrUL (natToBytesLE 4 mb.length)) with we | gl
  · rw [hgl, exceptBind_error] at h; cases h
  rw [hgl, exceptBind_ok] at h
  rcases hbb : encodeDataSet ts body with we | bb
  · rw [hbb, exceptBind_error] at h; cases h
  rw [hbb, exceptBind_ok, Except.ok.injEq] at h
  have hmwf : dsWF metaTS [tsUIDElem ts] = true := by
    rcases mem_supportedTS hts with h0 | h0 | h0 <;> subst h0 <;> decide
  refine ⟨gl, mb, bb, rfl, hgl, rfl, h.symm, ?_⟩
  exact encodeDataSet_roundtrip metaTS maxSeqDepth [tsUIDElem ts] hmwf
    (by simp [dsDepth, elemDepth, tsUIDElem]) mb hmb

/-- C5 witness: an implicit-VR little-endian body still gets an
explicit-VR little-endian meta header. -/
theorem c5_meta_explicit_le_witness :
    ∃ b, writeFull tsImplicitLE [] = .ok b ∧
      (metaTS = tsExplicitLE ∧
        ∃ gl mb bb,
          encodeDataSet metaTS [tsUIDElem tsImplicitLE] = .ok mb ∧
          encodeElement metaTS
            (.raw glTag vrUL (natToBytesLE 4 mb.length)) = .ok gl ∧
          encodeDataSet tsImplicitLE [] = .ok bb ∧
          b = preambleBytes ++ dicmBytes ++ gl ++ mb ++ bb ∧
          parseDataSet metaTS maxSeqDepth mb =
            .ok [tsUIDElem tsImplicitLE]) :=
  ⟨_, rfl, c5_meta_explicit_le tsImplicitLE (by decide) [] _ rfl⟩

/-- C6: Bounded recursion: every data set the parser produces has
nesting depth at most the depth budget (so the fixed top-level budget
`maxSeqDepth` bounds all parsed nesting), and a sequence element met
with the budget exhausted is rejected with `FormatError.depthExceeded`
instead of being recursed into. -/
theorem c6_depth_guard :
    (∀ (ts : TransferSyntax) (d : Nat) (bs : Bytes) (ds : DataSet),
      parseDataSet ts d bs = .ok ds → dsDepth ds ≤ d) ∧
    (∀ (ts : TransferSyntax) (t : Tag) (v : Bytes),
      parseValue ts 0 t vrSQ v = .error .depthExceeded) := by
  refine ⟨fun ts d bs ds h => parseDataSet_depth ts d bs ds h,
    fun ts t v => ?_⟩
  rw [parseValue, if_pos (by simp), if_pos rfl]

/-- C6 witness: the empty stream parses within the bound, and a
sequence at exhausted depth is rejected. -/
theorem c6_depth_guard_witness :
    dsDepth [] ≤ 5 ∧
    parseValue tsExplicitLE 0 ⟨8, 0x1140⟩ vrSQ [] =
      .error .depthExceeded :=
  ⟨c6_depth_guard.1 tsExplicitLE 5 [] [] (by simp [parseDataSet]),
   c6_depth_guard.2 tsExplicitLE ⟨8, 0x1140⟩ []⟩

/-- C7: The writer fails with a `WriteValueError` exactly when some
element's value does not fit its VR's length field (2-byte field for
short VRs, 4-byte field — 0xFFFFFFFF reserved — for long VRs and
sequence bodies) or is inconsistent with its numeric VR's width
(`badTags*` collects exactly those offending tags), and the reported
error names an offending tag. -/
theorem c7_writer_failure (ts : TransferSyntax) (ds : DataSet) :
    ((∃ we, encodeDataSet ts ds = .error we) ↔ badTagsDS ts ds ≠ []) ∧
    (∀ we, encodeDataSet ts ds = .error we →
      we.tag ∈ badTagsDS ts ds) := by
  constructor
  · constructor
    · rintro ⟨we, hwe⟩
      intro hnil
      have := (encodeDataSet_badTags ts ds).2 we hwe
      rw [hnil] at this
      cases this
    · intro hne
      rcases h : encodeDataSet ts ds with we | b
      · exact ⟨we, rfl⟩
      · exact absurd ((encodeDataSet_badTags ts ds).1 b h) hne
  · exact (encodeDataSet_badTags ts ds).2

/-- C7 witness: a US element with an odd byte count is rejected with an
error naming its tag; a well-formed element encodes. -/
theorem c7_writer_failure_witness :
    (⟨⟨8, 22⟩, "value does not fit its VR"⟩ : WriteValueError).tag ∈
      badTagsDS tsExplicitLE [.raw ⟨8, 22⟩ vrUS [1]] :=
  (c7_writer_failure tsExplicitLE [.raw ⟨8, 22⟩ vrUS [1]]).2
    ⟨⟨8, 22⟩, "value does not fit its VR"⟩ rfl

/-- C8: The Rectangle constructor normalizes its corners: begin is the
componentwise minimum and end the componentwise maximum of the two given
points, so `Rectangle(p,q).equals(Rectangle(q,p))`, the real width and
height are non-negative, and width/height coincide with their "real"
counterparts. -/
theorem c8_rectangle_normalized (p q : Point2D) :
    (Rectangle.make p q).begin = ⟨min p.x q.x, min p.y q.y⟩ ∧
    (Rectangle.make p q).«end» = ⟨max p.x q.x, max p.y q.y⟩ ∧
    (Rectangle.make p q).equalsB (Rectangle.make q p) = true ∧
    0 ≤ (Rectangle.make p q).getRealWidth ∧
    0 ≤ (Rectangle.make p q).getRealHeight ∧
    (Rectangle.make p q).getWidth = (Rectangle.make p q).getRealWidth ∧
    (Rectangle.make p q).getHeight = (Rectangle.make p q).getRealHeight := by
  have hw : 0 ≤ (Rectangle.make p q).getRealWidth := by
    rw [Rectangle.getRealWidth, Rectangle.make, sub_nonneg]
    exact le_trans (min_le_left _ _) (le_max_left _ _)
  have hh : 0 ≤ (Rectangle.make p q).getRealHeight := by
    rw [Rectangle.getRealHeight, Rectangle.make, sub_nonneg]
    exact le_trans (min_le_left _ _) (le_max_left _ _)
  refine ⟨rfl, rfl, ?_, hw, hh, ?_, ?_⟩
  · simp [Rectangle.equalsB, Point2D.equalsB, Rectangle.make,
      min_comm p.x q.x, min_comm p.y q.y, max_comm p.x q.x,
      max_comm p.y q.y]
  · rw [Rectangle.getWidth, abs_of_nonneg hw]
  · rw [Rectangle.getHeight, abs_of_nonneg hh]

/-- C9: `DataController.addNew` errors exactly when the index is already
used; on error the store is returned unchanged; on success the length
grows by one and `get` returns the stored `{image, meta}` entry. -/
theorem c9_addNew {α β : Type} (dc : DataController α β) (i : Nat)
    (img : α) (m : β) :
    ((dc.addNew i img m).2.isSome ↔ (dc.get i).isSome) ∧
    (∀ msg, (dc.addNew i img m).2 = some msg →
      (dc.addNew i img m).1 = dc) ∧
    ((dc.addNew i img m).2 = none →
      (dc.addNew i img m).1.length = dc.length + 1 ∧
      (dc.addNew i img m).1.get i = some ⟨img, m⟩) := by
  unfold DataController.addNew
  split
  next p hfind =>
    refine ⟨?_, ?_, ?_⟩
    · simp [DataController.get, hfind]
    · intro msg h
      rfl
    · intro h
      cases h
  next hfind =>
    refine ⟨?_, ?_, ?_⟩
    · simp [DataController.get, hfind]
    · intro msg h
      cases h
    · intro h
      refine ⟨?_, ?_⟩
      · simp [DataController.length]
      · rw [DataController.get]
        simp only [List.find?_append, hfind, Option.none_or]
        simp [List.find?]

/-- C9 witness: adding twice at the same index: the first succeeds, the
second errors with the store unchanged. -/
theorem c9_addNew_witness :
    (((DataController.empty Nat Nat).addNew 0 7 8).2 = none →
      ((DataController.empty Nat Nat).addNew 0 7 8).1.length =
        (DataController.empty Nat Nat).length + 1 ∧
      ((DataController.empty Nat Nat).addNew 0 7 8).1.get 0 =
        some ⟨7, 8⟩) ∧
    (((DataController.empty Nat Nat).addNew 0 7 8).2.isSome ↔
      ((DataController.empty Nat Nat).get 0).isSome) :=
  ⟨(c9_addNew (DataController.empty Nat Nat) 0 7 8).2.2,
   (c9_addNew (DataController.empty Nat Nat) 0 7 8).1⟩

/-- C10: Null-spacing propagation: `getWorldSurface` of a rectangle or
an ellipse is null when either spacing is null, and otherwise is the
surface multiplied by both spacings; a null spacing never yields a
numeric value. -/
theorem c10_null_spacing (r : Rectangle) (el : Ellipse)
    (sx sy : Option ℚ) :
    ((sx = none ∨ sy = none) →
      r.getWorldSurface sx sy = none ∧ el.getWorldSurface sx sy = none) ∧
    (∀ x y, sx = some x → sy = some y →
      r.getWorldSurface sx sy = some (r.getSurface * x * y) ∧
      el.getWorldSurface sx sy = some (el.getSurface * x * y)) := by
  constructor
  · rintro (h | h) <;> subst h
    · exact ⟨rfl, rfl⟩
    · cases sx <;> exact ⟨rfl, rfl⟩
  · intro x y hx hy
    subst hx; subst hy
    exact ⟨rfl, rfl⟩

/-- C10 witness: a unit square and circle-like ellipse with one null
spacing yield null; with spacings 2 and 3 they yield surface * 6. -/
theorem c10_null_spacing_witness :
    (Rectangle.make ⟨0, 0⟩ ⟨1, 1⟩).getWorldSurface none (some 1) = none ∧
    (Ellipse.mk ⟨0, 0⟩ 1 1).getWorldSurface none (some 1) = none ∧
    (Rectangle.make ⟨0, 0⟩ ⟨1, 1⟩).getWorldSurface (some 2) (some 3) =
      some ((Rectangle.make ⟨0, 0⟩ ⟨1, 1⟩).getSurface * 2 * 3) :=
  ⟨((c10_null_spacing (Rectangle.make ⟨0, 0⟩ ⟨1, 1⟩)
      (Ellipse.mk ⟨0, 0⟩ 1 1) none (some 1)).1 (Or.inl rfl)).1,
   ((c10_null_spacing (Rectangle.make ⟨0, 0⟩ ⟨1, 1⟩)
      (Ellipse.mk ⟨0, 0⟩ 1 1) none (some 1)).1 (Or.inl rfl)).2,
   ((c10_null_spacing (Rectangle.make ⟨0, 0⟩ ⟨1, 1⟩)
      (Ellipse.mk ⟨0, 0⟩ 1 1) (some 2) (some 3)).2 2 3 rfl rfl).1⟩

end DWV
